import Mathlib

/-!
A verification development for the gitee CLA robot.

The robot reconciles the CLA-signature state of a pull request: it resolves an
identity email for every commit, queries a signing service once per distinct
valid email, and drives the pull request's labels and guidance comments to
match the verdict.

The embedding below follows the Go source.  External effects are made explicit:

* the platform client is a `ClientEnv`, holding the results the client calls
  would return (commit listing, comment listing, the outcome of each
  label/comment mutation);
* `isSigned`, an HTTP query in the source, becomes the oracle
  `ClientEnv.querySigned : String → Except String Bool` (network, non-2xx
  status and parse failures are all `.error`);
* `utils.IsValidEmail`, a library routine, is a parameter
  `isValidEmail : String → Bool`;
* `handle` returns the ordered list of mutation calls it performed
  (`HandleOut.trace`) together with its returned error value (`HandleOut.ret`).

Label add/remove failures and comment-deletion failures are only logged by the
source (`log.WithError(...).Warningf`, `_ = c.DeletePRComment(...)`); logging is
outside the model, so those error values are carried in `ClientEnv` but provably
never influence the result.
-/

namespace RobotCla

/-- An author/committer identity attached to a commit: name and email. -/
structure GitUser where
  name : String
  email : String
deriving DecidableEq

/-- The nested commit record of a pull-request commit entry
(`c.Commit` in the source). -/
structure GitCommitInfo where
  author : Option GitUser
  committer : Option GitUser
  message : String
deriving DecidableEq

/-- One entry of the pull-request commit listing (`sdk.PullRequestCommits`). -/
structure PullRequestCommits where
  sha : String
  commit : Option GitCommitInfo
deriving DecidableEq

/-- One pull-request comment: its id and body (`sdk.PullRequestComments`). -/
structure PullRequestComments where
  id : Int
  body : String
deriving DecidableEq

/-- The lite-PR committer override from configuration (`litePRCommiter`). -/
structure LitePRCommitter where
  email : String
  name : String

/-- `litePRCommiter.isLitePR` from config.go: the committer is "lite" when its
email equals the configured email OR its name equals the configured name. -/
def LitePRCommitter.isLitePR (l : LitePRCommitter) (email name : String) : Bool :=
  email == l.email || name == l.name

/-- The per-repository bot configuration (`botConfig` in config.go). -/
structure BotConfig where
  claLabelYes : String
  claLabelNo : String
  checkURL : String
  signURL : String
  checkByCommitter : Bool
  litePRCommitter : LitePRCommitter
  faqURL : String

/-- The pull-request data `handle` and the event filters read:
state, current label names (`pr.LabelsToSet()`), author login. -/
structure PullRequestHook where
  state : String
  labels : List String
  userLogin : String

/-- `maxLengthOfSHA` from the source. -/
def maxLengthOfSHA : Nat := 8

/-- `strings.Trim(s, " ")`: strip leading and trailing space characters. -/
def trimSpaces (s : String) : String :=
  String.mk (((s.toList.dropWhile (· == ' ')).reverse.dropWhile (· == ' ')).reverse)

/-- `getAuthorOfCommit` from the source: pick the committer email when
`byCommitter` is set, the committer exists and is not the lite-PR committer;
otherwise fall back to the author email, or `""` when absent. -/
def getAuthorOfCommit (c : Option PullRequestCommits) (byCommitter : Bool)
    (isLitePR : String → String → Bool) : String :=
  match c with
  | none => ""
  | some pc =>
    match pc.commit with
    | none => ""
    | some commit =>
      let fromCommitter : Option String :=
        if byCommitter then
          match commit.committer with
          | some cm => if !(isLitePR cm.email cm.name) then some cm.email else none
          | none => none
        else none
      match fromCommitter with
      | some e => e
      | none =>
        match commit.author with
        | none => ""
        | some a => a.email

/-- The trimmed identity email the resolver computes for one commit
(the body of `authorEmailOfCommit` composed with `strings.Trim`). -/
def resolvedEmail (cfg : BotConfig) (c : PullRequestCommits) : String :=
  trimSpaces (getAuthorOfCommit (some c) cfg.checkByCommitter cfg.litePRCommitter.isLitePR)

/-- The state threaded through the commit loop of `getPRCommitsAbout`:
the per-pass cache `result`, the accumulated `unsigned` commits, and the
sequence of emails for which `isSigned` was actually invoked (`queried`
instruments the oracle calls; it has no counterpart variable in the source). -/
structure ResolveState where
  result : List (String × Bool)
  unsigned : List PullRequestCommits
  queried : List String

/-- Lookup in the per-pass cache (`result[email]` on a Go map whose keys are
inserted at most once, embedded as an association list). -/
def lookupResult (m : List (String × Bool)) (k : String) : Option Bool :=
  match m.find? (fun p => p.1 == k) with
  | some p => some p.2
  | none => none

/-- The commit loop of `getPRCommitsAbout` (source lines 184-208): invalid
emails are unsigned without a query; otherwise the cache is consulted and the
oracle is called only on a miss; an oracle error aborts, discarding the state. -/
def resolveLoop (cfg : BotConfig) (isValidEmail : String → Bool)
    (querySigned : String → Except String Bool) :
    List PullRequestCommits → ResolveState → Except String ResolveState
  | [], st => .ok st
  | c :: rest, st =>
    let email := resolvedEmail cfg c
    if !(isValidEmail email) then
      resolveLoop cfg isValidEmail querySigned rest
        { st with unsigned := st.unsigned ++ [c] }
    else
      match lookupResult st.result email with
      | some v =>
        if !v then
          resolveLoop cfg isValidEmail querySigned rest
            { st with unsigned := st.unsigned ++ [c] }
        else
          resolveLoop cfg isValidEmail querySigned rest st
      | none =>
        match querySigned email with
        | .error e => .error e
        | .ok b =>
          resolveLoop cfg isValidEmail querySigned rest
            { result := st.result ++ [(email, b)]
              unsigned := if !b then st.unsigned ++ [c] else st.unsigned
              queried := st.queried ++ [email] }

/-- `getPRCommitsAbout`: fetch the commits, fail when the listing fails or is
empty, then run the resolver loop from an empty per-pass state. -/
def getPRCommitsAbout (commitsRes : Except String (List PullRequestCommits))
    (cfg : BotConfig) (isValidEmail : String → Bool)
    (querySigned : String → Except String Bool) :
    Except String (List PullRequestCommits) :=
  match commitsRes with
  | .error e => .error e
  | .ok commits =>
    if commits.length = 0 then
      .error "commits is empty, cla cannot be checked"
    else
      match resolveLoop cfg isValidEmail querySigned commits ⟨[], [], []⟩ with
      | .error e => .error e
      | .ok st => .ok st.unsigned

/-- `signGuideTitle()` from the source. -/
def signGuideTitle : String :=
  "Thanks for your pull request.\n\nThe authors of the following commits have not signed the Contributor License Agreement (CLA):"

/-- The legacy guidance title recognised by `deleteSignGuide`. -/
def legacySignGuideTitle : String :=
  "Thanks for your pull request. Before we can look at your pull request, you'll need to sign a Contributor License Agreement (CLA)."

/-- `signGuide(signURL, cInfo, faq)`: the `fmt.Sprintf` template expanded. -/
def signGuide (signURL cInfo faq : String) : String :=
  signGuideTitle ++ "\n\n" ++ cInfo ++
    "\n\nPlease check the [**FAQs**](" ++ faq ++ ") first.\nYou can click [**here**](" ++
    signURL ++ ") to sign the CLA. After signing the CLA, you must comment \"/check-cla\" to check the CLA status again."

/-- `alreadySigned(user)` from the source. -/
def alreadySigned (user : String) : String :=
  "***@" ++ user ++ "***, thanks for your pull request. All authors of the commits have signed the CLA. :wave: "

/-- `sha[:maxLengthOfSHA]` guarded by the length test, as in
`generateUnSignComment` (byte slicing on an ASCII sha equals char slicing). -/
def truncatedSha (sha : String) : String :=
  if sha.length > maxLengthOfSHA then String.mk (sha.toList.take maxLengthOfSHA) else sha

/-- `generateUnSignComment` from the source. -/
def generateUnSignComment (commits : List PullRequestCommits) : String :=
  if commits.length = 0 then ""
  else
    String.intercalate "\n"
      (commits.map (fun c =>
        "**" ++ truncatedSha c.sha ++ "** | " ++
          (match c.commit with
           | some gc => gc.message
           | none => "")))

/-- One platform mutation call issued by the robot. -/
inductive Mutation where
  | addLabel (label : String)
  | removeLabel (label : String)
  | createComment (body : String)
  | deleteComment (id : Int)
deriving DecidableEq

/-- Whether a mutation is a label add or remove. -/
def Mutation.isLabelMutation : Mutation → Bool
  | .addLabel _ => true
  | .removeLabel _ => true
  | _ => false

/-- Whether a mutation is a comment deletion. -/
def Mutation.isDeleteComment : Mutation → Bool
  | .deleteComment _ => true
  | _ => false

/-- The platform client, as the data its calls would return.  The
`addLabelErr`/`removeLabelErr`/`deleteCommentErr` outcomes are carried for
completeness: the source only logs (or discards) them, so the model never
reads them.  `createCommentErr` is read, because `handle` returns the
`CreatePRComment` error directly. -/
structure ClientEnv where
  commits : Except String (List PullRequestCommits)
  comments : Except String (List PullRequestComments)
  querySigned : String → Except String Bool
  addLabelErr : String → Option String
  removeLabelErr : String → Option String
  deleteCommentErr : Int → Option String
  createCommentErr : String → Option String

/-- Whether a comment body is a guidance comment: it starts with the current
title or with the legacy title (the predicate `f` in `deleteSignGuide`). -/
def guideCommentMatch (body : String) : Bool :=
  body.startsWith signGuideTitle || body.startsWith legacySignGuideTitle

/-- `deleteSignGuide`: list the comments (silently doing nothing when the
listing fails) and delete every guidance-titled one, ignoring deletion
errors.  Returns the deletion calls issued, in order. -/
def deleteSignGuide (env : ClientEnv) : List Mutation :=
  match env.comments with
  | .error _ => []
  | .ok v =>
    (v.filter (fun item => guideCommentMatch item.body)).map
      (fun item => Mutation.deleteComment item.id)

/-- The observable outcome of `handle`: the ordered mutation calls issued and
the error value `handle` returns. -/
structure HandleOut where
  trace : List Mutation
  ret : Except String Unit

/-- `handle` from the source: resolve the unsigned set (fatal on error), read
the current labels, always delete stale guidance comments first, then per
branch remove/add labels guarded by current membership; the signed branch
posts a congratulation only when explicitly triggered and the signed label was
newly added, the unsigned branch always posts the guidance comment; the
returned error is the `CreatePRComment` result when one is issued. -/
def handle (env : ClientEnv) (pr : PullRequestHook) (cfg : BotConfig)
    (isValidEmail : String → Bool) (notifyAuthorIfSigned : Bool) : HandleOut :=
  match getPRCommitsAbout env.commits cfg isValidEmail env.querySigned with
  | .error e => { trace := [], ret := .error e }
  | .ok unsigned =>
    let hasCLAYes := pr.labels.contains cfg.claLabelYes
    let hasCLANo := pr.labels.contains cfg.claLabelNo
    let t0 := deleteSignGuide env
    if unsigned.length = 0 then
      let t1 := if hasCLANo then [Mutation.removeLabel cfg.claLabelNo] else []
      if !hasCLAYes then
        if notifyAuthorIfSigned then
          let body := alreadySigned pr.userLogin
          { trace := t0 ++ t1 ++ [Mutation.addLabel cfg.claLabelYes, Mutation.createComment body]
            ret := match env.createCommentErr body with
                   | some e => .error e
                   | none => .ok () }
        else
          { trace := t0 ++ t1 ++ [Mutation.addLabel cfg.claLabelYes], ret := .ok () }
      else
        { trace := t0 ++ t1, ret := .ok () }
    else
      let t1 := if hasCLAYes then [Mutation.removeLabel cfg.claLabelYes] else []
      let t2 := if !hasCLANo then [Mutation.addLabel cfg.claLabelNo] else []
      let body := signGuide cfg.signURL (generateUnSignComment unsigned) cfg.faqURL
      { trace := t0 ++ t1 ++ t2 ++ [Mutation.createComment body]
        ret := match env.createCommentErr body with
               | some e => .error e
               | none => .ok () }

/-!
The `/check-cla` trigger.  The source compiles `checkCLARe` as the RE2 regular
expression `(?mi)^/check-cla\s*$` and calls `MatchString` on the comment body.
The matcher below implements exactly those RE2 semantics: case-insensitive
literal matching, `\s = [\t\n\f\r ]`, `^`/`$` anchored at line boundaries
(multiline), and `MatchString` as "a match exists somewhere".
-/

/-- RE2 `\s`: tab, newline, form feed, carriage return, space. -/
def perlSpace (c : Char) : Bool :=
  c == ' ' || c == '\t' || c == '\n' || c == '\x0c' || c == '\r'

/-- Match a literal case-insensitively at the head of the input, returning the
remaining input on success. -/
def matchLiteralCI : List Char → List Char → Option (List Char)
  | [], cs => some cs
  | _ :: _, [] => none
  | p :: ps, c :: cs =>
    if c.toLower == p.toLower then matchLiteralCI ps cs else none

/-- `\s*$` in multiline mode: skip `\s` characters until the position is the
end of the text or sits just before a newline. -/
def matchLineEnd : List Char → Bool
  | [] => true
  | c :: rest => c == '\n' || (perlSpace c && matchLineEnd rest)

/-- The literal of the trigger pattern. -/
def checkCLALiteral : List Char := "/check-cla".toList

/-- Does a match of `/check-cla\s*$` start at the current position? -/
def matchCheckCLAHere (cs : List Char) : Bool :=
  match matchLiteralCI checkCLALiteral cs with
  | some rest => matchLineEnd rest
  | none => false

/-- Scan the text for a match; `atLineStart` says whether the current position
is the beginning of the text or just after a newline (where `^` matches). -/
def checkCLAScan : Bool → List Char → Bool
  | atLineStart, [] => atLineStart && matchCheckCLAHere []
  | atLineStart, c :: rest =>
    (atLineStart && matchCheckCLAHere (c :: rest)) || checkCLAScan (c == '\n') rest

/-- `checkCLARe.MatchString(s)`. -/
def checkCLAReMatch (s : String) : Bool :=
  checkCLAScan true s.toList

/-- A comment event, as the fields the handler reads.  The two sdk predicates
`IsCreatingCommentEvent` (action is "comment") and `IsPullRequest` (noteable
type is "PullRequest") are carried as booleans; neither inspects the pull
request state. -/
structure NoteEvent where
  isCreatingCommentEvent : Bool
  isPullRequest : Bool
  commentBody : String
  pr : PullRequestHook

/-- The observable outcome of an event handler invocation. -/
inductive EventOutcome where
  | skipped
  | configError (e : String)
  | handled (out : HandleOut)

/-- `handleNoteEvent` from the source: skip unless the comment was newly
created on a pull request and matches the trigger; then look up the per-repo
configuration and run `handle` with `notifyAuthorIfSigned = true`. -/
def handleNoteEvent (env : ClientEnv) (cfgRes : Except String BotConfig)
    (isValidEmail : String → Bool) (e : NoteEvent) : EventOutcome :=
  if !e.isCreatingCommentEvent || !e.isPullRequest then .skipped
  else if !(checkCLAReMatch e.commentBody) then .skipped
  else
    match cfgRes with
    | .error err => .configError err
    | .ok cfg => .handled (handle env e.pr cfg isValidEmail true)

/-!
The effect of a mutation trace on the label set, modelling a platform that
applies every label call (the claims about the resulting label state assume
the mutations succeed).
-/

/-- Apply one mutation to the current label set; comment mutations leave the
labels unchanged. -/
def applyMutation (labels : List String) : Mutation → List String
  | .addLabel l => if labels.contains l then labels else labels ++ [l]
  | .removeLabel l => labels.filter (fun x => !(x == l))
  | .createComment _ => labels
  | .deleteComment _ => labels

/-- Apply a mutation trace left to right. -/
def applyTrace (labels : List String) (t : List Mutation) : List String :=
  t.foldl applyMutation labels

/-!
Definitions following the specification's words, for the refinement claims.
They are compared against the definitions above, which follow the source.
-/

/-- Following the spec's words: the commit has a committer identity and
`isLitePR(committerEmail, committerName)` is false. -/
def hasAuthoritativeCommitter (gc : GitCommitInfo) (isLitePR : String → String → Bool) : Bool :=
  match gc.committer with
  | some cm => !(isLitePR cm.email cm.name)
  | none => false

/-- Following the spec's words (§4.2): if `checkByCommitter` is true and the
commit has a committer identity that is not the lite-PR committer, the
committer's email; otherwise the author's email when present; otherwise the
empty string. -/
def resolveIdentitySpec (c : PullRequestCommits) (checkByCommitter : Bool)
    (isLitePR : String → String → Bool) : String :=
  match c.commit with
  | none => ""
  | some gc =>
    if checkByCommitter && hasAuthoritativeCommitter gc isLitePR then
      (match gc.committer with
       | some cm => cm.email
       | none => "")
    else
      match gc.author with
      | some a => a.email
      | none => ""

/-- Following the spec's words: one guidance line per unsigned commit,
`**<8-char-SHA-prefix>** | <commit message>`. -/
def renderUnsignedLineSpec (c : PullRequestCommits) : String :=
  "**" ++ String.mk (c.sha.toList.take 8) ++ "** | " ++
    (match c.commit with
     | some gc => gc.message
     | none => "")

/-- Following the spec's words: the guidance comment body, the per-commit
lines joined by newlines in listing order, wrapped with the fixed title, the
configured FAQ URL and the configured sign URL. -/
def guidanceBodySpec (cfg : BotConfig) (unsigned : List PullRequestCommits) : String :=
  signGuideTitle ++ "\n\n" ++
    String.intercalate "\n" (unsigned.map renderUnsignedLineSpec) ++
    "\n\nPlease check the [**FAQs**](" ++ cfg.faqURL ++ ") first.\nYou can click [**here**](" ++
    cfg.signURL ++ ") to sign the CLA. After signing the CLA, you must comment \"/check-cla\" to check the CLA status again."

/-- Split a character list into its newline-separated lines. -/
def splitOnNewline : List Char → List (List Char)
  | [] => [[]]
  | c :: rest =>
    if c == '\n' then [] :: splitOnNewline rest
    else
      match splitOnNewline rest with
      | [] => [[c]]
      | l :: ls => (c :: l) :: ls

/-- Following the spec's words, restricted to one line: the line consists of
`/check-cla` (case-insensitive) followed only by whitespace — so a line with
leading whitespace is not a trigger line. -/
def isTriggerLine (line : List Char) : Bool :=
  match matchLiteralCI checkCLALiteral line with
  | some rest => rest.all perlSpace
  | none => false

/-!
Concrete fixtures shared by the witness and counterexample theorems.
-/

/-- A commit whose author email is `a@x.com`. -/
def commitA : PullRequestCommits :=
  { sha := "abcdef1234"
    commit := some { author := some { name := "alice", email := "a@x.com" }
                     committer := none, message := "feat" } }

/-- A second commit sharing the author email `a@x.com`. -/
def commitB : PullRequestCommits :=
  { sha := "1111111111"
    commit := some { author := some { name := "bob", email := "a@x.com" }
                     committer := none, message := "fix" } }

/-- A commit with no commit record: its resolved email is empty and invalid. -/
def commitBad : PullRequestCommits := { sha := "9999", commit := none }

/-- A concrete configuration. -/
def cfgW : BotConfig :=
  { claLabelYes := "cla-yes", claLabelNo := "cla-no"
    checkURL := "http://check", signURL := "http://sign"
    checkByCommitter := false
    litePRCommitter := { email := "lite@x.com", name := "lite" }
    faqURL := "http://faq" }

/-- A concrete email validity check: accepts exactly two addresses. -/
def validW : String → Bool := fun e => e == "a@x.com" || e == "b@x.com"

/-- Build a client environment from a commit listing and a signing oracle;
every mutation succeeds and the comment listing is empty. -/
def envOf (cs : Except String (List PullRequestCommits))
    (q : String → Except String Bool) : ClientEnv :=
  { commits := cs, comments := .ok [], querySigned := q
    addLabelErr := fun _ => none, removeLabelErr := fun _ => none
    deleteCommentErr := fun _ => none, createCommentErr := fun _ => none }

/-- A pull request with no labels. -/
def prW : PullRequestHook := { state := "open", labels := [], userLogin := "alice" }

/-- A pull request already carrying the unsigned label. -/
def prNo : PullRequestHook := { state := "open", labels := ["cla-no"], userLogin := "alice" }

/-- A pull request already carrying the signed label. -/
def prYes : PullRequestHook := { state := "open", labels := ["cla-yes"], userLogin := "alice" }

/-!
Claim theorems.
-/

/-- Claim C3: the resolved identity email of a commit is the committer's email
when `checkByCommitter` is set, a committer identity exists and it is not the
lite-PR committer; otherwise the author's email when present; otherwise the
empty string — and `isLitePR` is true exactly when the email matches the
configured override email OR the name matches the configured override name. -/
theorem getAuthorOfCommit_matches_spec :
    (∀ (c : PullRequestCommits) (byCommitter : Bool) (isLitePR : String → String → Bool),
       getAuthorOfCommit (some c) byCommitter isLitePR = resolveIdentitySpec c byCommitter isLitePR) ∧
    (∀ (l : LitePRCommitter) (email name : String),
       l.isLitePR email name = true ↔ (email = l.email ∨ name = l.name)) := by
  constructor
  · intro c byCommitter isLitePR
    rcases h : c.commit with _ | gc
    · simp [getAuthorOfCommit, resolveIdentitySpec, h]
    · rcases hcm : gc.committer with _ | cm
      · cases byCommitter <;>
          simp [getAuthorOfCommit, resolveIdentitySpec, hasAuthoritativeCommitter, h, hcm] <;>
            (rcases ha : gc.author with _ | a <;> simp [ha])
      · cases hl : isLitePR cm.email cm.name <;> cases byCommitter <;>
          simp [getAuthorOfCommit, resolveIdentitySpec, hasAuthoritativeCommitter, h, hcm, hl] <;>
            (rcases ha : gc.author with _ | a <;> simp [ha])
  · intro l email name
    simp [LitePRCommitter.isLitePR]

/-- Claim C1: when the commit listing fails or is empty, or the resolver pass
fails (as it does whenever a signing-status query errors), `handle` returns
that error and issues no mutation call at all — partial results of the pass
are discarded. -/
theorem handle_fatal_on_resolver_error (env : ClientEnv) (pr : PullRequestHook)
    (cfg : BotConfig) (isValidEmail : String → Bool) (notify : Bool) :
    (∀ e, env.commits = .error e →
       handle env pr cfg isValidEmail notify = ⟨[], .error e⟩) ∧
    (env.commits = .ok [] →
       handle env pr cfg isValidEmail notify =
         ⟨[], .error "commits is empty, cla cannot be checked"⟩) ∧
    (∀ e, getPRCommitsAbout env.commits cfg isValidEmail env.querySigned = .error e →
       handle env pr cfg isValidEmail notify = ⟨[], .error e⟩) := by
  have key : ∀ e, getPRCommitsAbout env.commits cfg isValidEmail env.querySigned = .error e →
      handle env pr cfg isValidEmail notify = ⟨[], .error e⟩ := by
    intro e h
    simp [handle, h]
  refine ⟨fun e h => key e ?_, fun h => key _ ?_, key⟩
  · simp [getPRCommitsAbout, h]
  · simp [getPRCommitsAbout, h]

/-- Witness for C1: on an empty commit listing, `handle` returns the
no-commits error and performs no mutation. -/
theorem handle_fatal_on_resolver_error_witness :
    handle (envOf (.ok []) (fun _ => .ok true)) prW cfgW validW false =
      ⟨[], .error "commits is empty, cla cannot be checked"⟩ :=
  (handle_fatal_on_resolver_error (envOf (.ok []) (fun _ => .ok true)) prW cfgW validW false).2.1 rfl

/-- Claim C10 counterexample: a failing `CreatePRComment` IS returned by
`handle` — here the pass issues its mutations (two calls in the trace) yet
`handle` returns the comment-creation error to the caller, so not every
label/comment mutation failure is invisible to the caller. -/
theorem createComment_error_returned_cex :
    (handle { envOf (.ok [commitBad]) (fun _ => .ok true) with
                createCommentErr := fun _ => some "boom" } prW cfgW validW false).ret =
        Except.error "boom" ∧
    (handle { envOf (.ok [commitBad]) (fun _ => .ok true) with
                createCommentErr := fun _ => some "boom" } prW cfgW validW false).trace.length = 2 :=
  ⟨rfl, rfl⟩

/-- Claim C10 (amended): label add/remove failures and comment-deletion
failures are invisible — `handle` behaves identically whatever those calls
return, and the mutation trace does not depend on the comment-creation outcome
either — but the error of the final `CreatePRComment` (the guidance comment of
the unsigned branch) is returned by `handle` to the caller. -/
theorem mutation_error_policy (env : ClientEnv) (pr : PullRequestHook) (cfg : BotConfig)
    (isValidEmail : String → Bool) (notify : Bool) :
    (∀ f g h, handle { env with addLabelErr := f, removeLabelErr := g, deleteCommentErr := h }
        pr cfg isValidEmail notify = handle env pr cfg isValidEmail notify) ∧
    (∀ f, (handle { env with createCommentErr := f } pr cfg isValidEmail notify).trace
        = (handle env pr cfg isValidEmail notify).trace) ∧
    (∀ unsigned, getPRCommitsAbout env.commits cfg isValidEmail env.querySigned = .ok unsigned →
       unsigned ≠ [] →
       (handle env pr cfg isValidEmail notify).ret =
         (match env.createCommentErr
             (signGuide cfg.signURL (generateUnSignComment unsigned) cfg.faqURL) with
          | some e => .error e
          | none => .ok ())) := by
  refine ⟨fun f g h => rfl, ?_, ?_⟩
  · intro f
    cases hg : getPRCommitsAbout env.commits cfg isValidEmail env.querySigned with
    | error e => simp [handle, hg]
    | ok unsigned =>
      simp only [handle, hg]
      split_ifs <;> rfl
  · intro unsigned hg hne
    have hlen : ¬(unsigned.length = 0) := by simpa using hne
    simp only [handle, hg]
    rw [if_neg hlen]

/-- Witness for C10 (amended): with a succeeding comment creation the unsigned
branch returns `ok`. -/
theorem mutation_error_policy_witness :
    (handle (envOf (.ok [commitBad]) (fun _ => .ok true)) prW cfgW validW false).ret =
      Except.ok () := by
  have h := (mutation_error_policy (envOf (.ok [commitBad]) (fun _ => .ok true))
    prW cfgW validW false).2.2 [commitBad] rfl (by decide)
  simpa using h

/-- Claim C7: whenever the resolver pass succeeds and the comment listing is
available, the mutation trace of `handle` starts with the deletion of every
guidance-titled comment (current or legacy title), and no comment deletion
occurs later in the trace — in the signed branch and in the unsigned branch
alike. -/
theorem deleteSignGuide_runs_first (env : ClientEnv) (pr : PullRequestHook)
    (cfg : BotConfig) (isValidEmail : String → Bool) (notify : Bool)
    (unsigned : List PullRequestCommits) (cs : List PullRequestComments)
    (hok : getPRCommitsAbout env.commits cfg isValidEmail env.querySigned = .ok unsigned)
    (hc : env.comments = .ok cs) :
    ∃ rest, (handle env pr cfg isValidEmail notify).trace =
        (cs.filter (fun item => guideCommentMatch item.body)).map
          (fun item => Mutation.deleteComment item.id) ++ rest ∧
      ∀ m ∈ rest, m.isDeleteComment = false := by
  have hd : deleteSignGuide env =
      (cs.filter (fun item => guideCommentMatch item.body)).map
        (fun item => Mutation.deleteComment item.id) := by
    simp [deleteSignGuide, hc]
  simp only [handle, hok]
  split_ifs <;>
    (simp only [hd, List.append_assoc]
     exact ⟨_, rfl, by intro m hm; cases m <;> simp_all [Mutation.isDeleteComment]⟩)

/-- Witness for C7: concretely, with one stale guidance comment and one
unrelated comment, the trace deletes exactly the stale one first. -/
theorem deleteSignGuide_runs_first_witness :
    ∃ rest, (handle { envOf (.ok [commitA]) (fun _ => .ok true) with
        comments := .ok [
          { id := 7, body := signGuideTitle ++ "\n\nrest" },
          { id := 8, body := "unrelated" }] } prW cfgW validW false).trace =
        ([{ id := 7, body := signGuideTitle ++ "\n\nrest" },
          { id := 8, body := "unrelated" }].filter
            (fun item : PullRequestComments => guideCommentMatch item.body)).map
          (fun item => Mutation.deleteComment item.id) ++ rest ∧
      ∀ m ∈ rest, m.isDeleteComment = false :=
  deleteSignGuide_runs_first _ prW cfgW validW false [] _ rfl rfl

/-- Deleting comments contributes no label mutation to the trace. -/
lemma filter_label_map_delete (l : List PullRequestComments) :
    (l.map (fun item => Mutation.deleteComment item.id)).filter Mutation.isLabelMutation = [] := by
  induction l with
  | nil => rfl
  | cons a t ih => simp [Mutation.isLabelMutation, ih]

/-- The `deleteSignGuide` part of a trace holds no label mutation. -/
lemma filter_label_deleteSignGuide (env : ClientEnv) :
    (deleteSignGuide env).filter Mutation.isLabelMutation = [] := by
  unfold deleteSignGuide
  cases env.comments with
  | error e => rfl
  | ok v => exact filter_label_map_delete _

/-- Claim C4: re-running reconciliation with an unchanged verdict and
already-correct labels issues no label mutation (membership in the current
label set guards every add/remove), while an unsigned verdict reposts the
guidance comment on every run. -/
theorem handle_idempotent_labels (env : ClientEnv) (pr : PullRequestHook)
    (cfg : BotConfig) (isValidEmail : String → Bool) (notify : Bool)
    (unsigned : List PullRequestCommits)
    (hok : getPRCommitsAbout env.commits cfg isValidEmail env.querySigned = .ok unsigned) :
    (unsigned = [] → pr.labels.contains cfg.claLabelYes = true →
       pr.labels.contains cfg.claLabelNo = false →
       (handle env pr cfg isValidEmail notify).trace.filter Mutation.isLabelMutation = []) ∧
    (unsigned ≠ [] → pr.labels.contains cfg.claLabelNo = true →
       pr.labels.contains cfg.claLabelYes = false →
       ((handle env pr cfg isValidEmail notify).trace.filter Mutation.isLabelMutation = [] ∧
        Mutation.createComment (signGuide cfg.signURL (generateUnSignComment unsigned) cfg.faqURL)
          ∈ (handle env pr cfg isValidEmail notify).trace)) := by
  constructor
  · intro h1 h2 h3
    subst h1
    have h2' : cfg.claLabelYes ∈ pr.labels := by simpa using h2
    have h3' : cfg.claLabelNo ∉ pr.labels := by simpa using h3
    simp [handle, hok, h2', h3', List.filter_append, filter_label_deleteSignGuide]
  · intro h1 h2 h3
    have hlen : ¬(unsigned.length = 0) := by simpa using h1
    have h2' : cfg.claLabelNo ∈ pr.labels := by simpa using h2
    have h3' : cfg.claLabelYes ∉ pr.labels := by simpa using h3
    constructor
    · simp [handle, hok, h2', h3', hlen, List.filter_append, filter_label_deleteSignGuide,
        Mutation.isLabelMutation]
    · simp [handle, hok, h2', h3', hlen]

/-- Witness for C4: with the unsigned label already present and an unsigned
verdict, the trace has no label mutation but does contain the freshly built
guidance comment. -/
theorem handle_idempotent_labels_witness :
    (handle (envOf (.ok [commitB]) (fun _ => .ok false)) prNo cfgW validW true).trace.filter
        Mutation.isLabelMutation = [] ∧
    Mutation.createComment (signGuide cfgW.signURL (generateUnSignComment [commitB]) cfgW.faqURL)
      ∈ (handle (envOf (.ok [commitB]) (fun _ => .ok false)) prNo cfgW validW true).trace :=
  (handle_idempotent_labels (envOf (.ok [commitB]) (fun _ => .ok false)) prNo cfgW validW true
    [commitB] rfl).2 (by decide) (by decide) (by decide)

/-- A sha is truncated to its first `maxLengthOfSHA` characters
(a no-op when it is already that short). -/
lemma truncatedSha_take (s : String) :
    truncatedSha s = String.mk (s.toList.take maxLengthOfSHA) := by
  unfold truncatedSha
  split_ifs with h
  · rfl
  · have hl : s.toList.length ≤ maxLengthOfSHA := Nat.le_of_not_lt h
    rw [List.take_of_length_le hl]
    rfl

/-- `generateUnSignComment` on a non-empty list renders exactly the spec's
per-commit lines, joined by newlines, in listing order. -/
lemma generateUnSignComment_spec (cs : List PullRequestCommits) (h : cs ≠ []) :
    generateUnSignComment cs = String.intercalate "\n" (cs.map renderUnsignedLineSpec) := by
  unfold generateUnSignComment
  rw [if_neg (by simpa using h)]
  congr 1
  simp [renderUnsignedLineSpec, truncatedSha_take, maxLengthOfSHA]

/-- Claim C6: with a non-empty unsigned set, the last mutation of the pass is
the creation of the guidance comment, whose body is exactly the fixed title,
the `**<8-char-SHA-prefix>** | <message>` lines in listing order joined by
newlines, and the configured FAQ and sign URLs. -/
theorem guidance_comment_lists_unsigned (env : ClientEnv) (pr : PullRequestHook)
    (cfg : BotConfig) (isValidEmail : String → Bool) (notify : Bool)
    (unsigned : List PullRequestCommits)
    (hok : getPRCommitsAbout env.commits cfg isValidEmail env.querySigned = .ok unsigned)
    (hne : unsigned ≠ []) :
    (handle env pr cfg isValidEmail notify).trace.getLast? =
      some (Mutation.createComment (guidanceBodySpec cfg unsigned)) := by
  have hlen : ¬(unsigned.length = 0) := by simpa using hne
  have hbody : signGuide cfg.signURL (generateUnSignComment unsigned) cfg.faqURL =
      guidanceBodySpec cfg unsigned := by
    rw [signGuide, generateUnSignComment_spec unsigned hne]
    rfl
  simp only [handle, hok]
  rw [if_neg hlen]
  simp [hbody, List.getLast?_concat]

/-- Witness for C6: concretely, the final mutation posts the fully expanded
spec-side guidance body. -/
theorem guidance_comment_lists_unsigned_witness :
    (handle (envOf (.ok [commitB]) (fun _ => .ok false)) prW cfgW validW true).trace.getLast? =
      some (Mutation.createComment (guidanceBodySpec cfgW [commitB])) :=
  guidance_comment_lists_unsigned (envOf (.ok [commitB]) (fun _ => .ok false)) prW cfgW validW
    true [commitB] rfl (by decide)

/-- `applyTrace` distributes over trace concatenation. -/
lemma applyTrace_append (ls : List String) (t u : List Mutation) :
    applyTrace ls (t ++ u) = applyTrace (applyTrace ls t) u :=
  List.foldl_append _ _ _ _

/-- Unfolding `applyTrace` on an empty trace. -/
lemma applyTrace_nil (ls : List String) : applyTrace ls [] = ls := rfl

/-- Unfolding `applyTrace` on a trace step. -/
lemma applyTrace_cons (ls : List String) (m : Mutation) (t : List Mutation) :
    applyTrace ls (m :: t) = applyTrace (applyMutation ls m) t := rfl

/-- Posting a comment does not change the labels. -/
lemma applyMutation_comment (ls : List String) (b : String) :
    applyMutation ls (.createComment b) = ls := rfl

/-- A non-label mutation leaves the labels unchanged. -/
lemma applyMutation_no_label (ls : List String) (m : Mutation)
    (h : m.isLabelMutation = false) : applyMutation ls m = ls := by
  cases m <;> simp_all [Mutation.isLabelMutation, applyMutation]

/-- A trace without label mutations leaves the labels unchanged. -/
lemma applyTrace_no_label (ls : List String) :
    ∀ ms : List Mutation, (∀ m ∈ ms, m.isLabelMutation = false) → applyTrace ls ms = ls := by
  intro ms
  induction ms with
  | nil => intro _; rfl
  | cons m t ih =>
    intro h
    rw [applyTrace_cons, applyMutation_no_label ls m (h m (List.mem_cons_self m t))]
    exact ih (fun x hx => h x (List.mem_cons_of_mem _ hx))

/-- Every mutation issued by `deleteSignGuide` is a comment deletion. -/
lemma deleteSignGuide_no_label (env : ClientEnv) :
    ∀ m ∈ deleteSignGuide env, m.isLabelMutation = false := by
  unfold deleteSignGuide
  cases env.comments with
  | error e => simp
  | ok v =>
    intro m hm
    rcases List.mem_map.mp hm with ⟨a, _, rfl⟩
    rfl

/-- The guidance-deletion part of a trace does not affect the labels. -/
lemma applyTrace_deleteSignGuide (env : ClientEnv) (ls : List String) :
    applyTrace ls (deleteSignGuide env) = ls :=
  applyTrace_no_label ls _ (deleteSignGuide_no_label env)

/-- Membership after a remove-label mutation. -/
lemma mem_removeLabel (ls : List String) (l a : String) :
    a ∈ applyMutation ls (.removeLabel l) ↔ a ∈ ls ∧ ¬a = l := by
  simp [applyMutation]

/-- Membership after an add-label mutation. -/
lemma mem_addLabel (ls : List String) (l a : String) :
    a ∈ applyMutation ls (.addLabel l) ↔ a ∈ ls ∨ a = l := by
  simp only [applyMutation]
  split_ifs with h
  · have hl : l ∈ ls := by simpa using h
    constructor
    · exact Or.inl
    · rintro (h1 | rfl)
      · exact h1
      · exact hl
  · simp

/-- Claim C5: after a pass whose resolver succeeded, applying the issued
mutations to the current labels leaves exactly one of the two CLA labels
present (the two configured label names being distinct): the signed label and
not the unsigned one on an empty unsigned set, the unsigned label and not the
signed one otherwise. -/
theorem label_mutual_exclusion (env : ClientEnv) (pr : PullRequestHook)
    (cfg : BotConfig) (isValidEmail : String → Bool) (notify : Bool)
    (unsigned : List PullRequestCommits)
    (hok : getPRCommitsAbout env.commits cfg isValidEmail env.querySigned = .ok unsigned)
    (hlab : cfg.claLabelYes ≠ cfg.claLabelNo) :
    (unsigned = [] →
       cfg.claLabelYes ∈ applyTrace pr.labels (handle env pr cfg isValidEmail notify).trace ∧
       cfg.claLabelNo ∉ applyTrace pr.labels (handle env pr cfg isValidEmail notify).trace) ∧
    (unsigned ≠ [] →
       cfg.claLabelNo ∈ applyTrace pr.labels (handle env pr cfg isValidEmail notify).trace ∧
       cfg.claLabelYes ∉ applyTrace pr.labels (handle env pr cfg isValidEmail notify).trace) := by
  have h0 : ∀ ls, applyTrace ls (deleteSignGuide env) = ls :=
    applyTrace_deleteSignGuide env
  constructor
  · rintro rfl
    by_cases hy : cfg.claLabelYes ∈ pr.labels <;> by_cases hn : cfg.claLabelNo ∈ pr.labels <;>
      cases notify <;>
        (constructor <;>
          simp [handle, hok, hy, hn, hlab, Ne.symm hlab, applyTrace_append, h0,
            applyTrace_cons, applyTrace_nil, applyMutation_comment, mem_addLabel,
            mem_removeLabel])
  · intro hne
    have hlen : ¬(unsigned.length = 0) := by simpa using hne
    by_cases hy : cfg.claLabelYes ∈ pr.labels <;> by_cases hn : cfg.claLabelNo ∈ pr.labels <;>
      (constructor <;>
        simp [handle, hok, hlen, hy, hn, hlab, Ne.symm hlab, applyTrace_append, h0,
          applyTrace_cons, applyTrace_nil, applyMutation_comment, mem_addLabel,
          mem_removeLabel])

/-- Witness for C5: a fully signed pull request that enters with the unsigned
label ends with the signed label only. -/
theorem label_mutual_exclusion_witness :
    "cla-yes" ∈ applyTrace prNo.labels
        (handle (envOf (.ok [commitA]) (fun _ => .ok true)) prNo cfgW validW false).trace ∧
    "cla-no" ∉ applyTrace prNo.labels
        (handle (envOf (.ok [commitA]) (fun _ => .ok true)) prNo cfgW validW false).trace :=
  (label_mutual_exclusion (envOf (.ok [commitA]) (fun _ => .ok true)) prNo cfgW validW false
    [] rfl (by decide)).1 rfl

/-- The per-pass cache misses exactly on keys outside its key list. -/
lemma lookupResult_none_iff (m : List (String × Bool)) (k : String) :
    lookupResult m k = none ↔ k ∉ m.map Prod.fst := by
  constructor
  · intro h hmem
    rcases List.mem_map.mp hmem with ⟨p, hp, hpk⟩
    unfold lookupResult at h
    rcases hf : m.find? (fun q => q.1 == k) with _ | q
    · have := List.find?_eq_none.mp hf p hp
      simp [hpk] at this
    · rw [hf] at h
      simp at h
  · intro h
    unfold lookupResult
    rcases hf : m.find? (fun q => q.1 == k) with _ | q
    · rw [hf]
    · exfalso
      have h1 := List.find?_some hf
      have h2 := List.mem_of_find?_eq_some hf
      exact h (List.mem_map.mpr ⟨q, h2, by simpa using h1⟩)

/-- The resolver-loop invariant: the instrumented list of queried emails
always equals the cache's key list, stays duplicate-free, and grows by exactly
those valid resolved emails of the processed commits that were not yet
cached. -/
lemma resolveLoop_queried (cfg : BotConfig) (valid : String → Bool)
    (q : String → Except String Bool) :
    ∀ (cs : List PullRequestCommits) (st st' : ResolveState),
      resolveLoop cfg valid q cs st = .ok st' →
      st.queried = st.result.map Prod.fst →
      st.queried.Nodup →
      (st'.queried = st'.result.map Prod.fst ∧ st'.queried.Nodup ∧
       ∀ e, e ∈ st'.queried ↔
         (e ∈ st.queried ∨
          (valid e = true ∧ e ∈ cs.map (resolvedEmail cfg) ∧ e ∉ st.queried))) := by
  intro cs
  induction cs with
  | nil =>
    intro st st' h hkeys hnd
    simp only [resolveLoop] at h
    cases h
    exact ⟨hkeys, hnd, by simp⟩
  | cons c rest ih =>
    intro st st' h hkeys hnd
    simp only [resolveLoop] at h
    cases hv : valid (resolvedEmail cfg c) with
    | false =>
      rw [hv] at h
      simp at h
      obtain ⟨hk, nd, hiff⟩ := ih _ _ h hkeys hnd
      refine ⟨hk, nd, fun e => (hiff e).trans ?_⟩
      by_cases he : e = resolvedEmail cfg c
      · subst he
        simp [hv]
      · simp [he]
    | true =>
      rw [hv] at h
      simp at h
      rcases hl : lookupResult st.result (resolvedEmail cfg c) with _ | v
      · rw [hl] at h
        have hE : resolvedEmail cfg c ∉ st.queried := by
          rw [hkeys]
          exact (lookupResult_none_iff _ _).mp hl
        rcases hq : q (resolvedEmail cfg c) with err | b
        · rw [hq] at h
          cases h
        · rw [hq] at h
          have hkeys1 : (st.queried ++ [resolvedEmail cfg c]) =
              (st.result ++ [(resolvedEmail cfg c, b)]).map Prod.fst := by
            simp [hkeys]
          have hnd1 : (st.queried ++ [resolvedEmail cfg c]).Nodup := by
            simp [List.nodup_append, hnd, hE]
          obtain ⟨hk, nd, hiff⟩ := ih _ _ h hkeys1 hnd1
          refine ⟨hk, nd, fun e => (hiff e).trans ?_⟩
          by_cases he : e = resolvedEmail cfg c
          · subst he
            simp [hE, hv]
          · simp [List.mem_append, he, hv]
      · rw [hl] at h
        have hEmem : resolvedEmail cfg c ∈ st.queried := by
          rw [hkeys]
          by_contra hc
          rw [← lookupResult_none_iff] at hc
          rw [hc] at hl
          cases hl
        have step : ∀ st1 : ResolveState, st1.queried = st.queried →
            st1.result = st.result →
            resolveLoop cfg valid q rest st1 = .ok st' →
            (st'.queried = st'.result.map Prod.fst ∧ st'.queried.Nodup ∧
             ∀ e, e ∈ st'.queried ↔
               (e ∈ st.queried ∨
                (valid e = true ∧ e ∈ (c :: rest).map (resolvedEmail cfg) ∧
                 e ∉ st.queried))) := by
          intro st1 hq1 hr1 hrec
          obtain ⟨hk, nd, hiff⟩ := ih _ _ hrec (by rw [hq1, hr1]; exact hkeys)
            (by rw [hq1]; exact hnd)
          rw [hq1] at hiff
          refine ⟨hk, nd, fun e => (hiff e).trans ?_⟩
          by_cases he : e = resolvedEmail cfg c
          · subst he
            simp [hEmem]
          · simp [he]
        cases v with
        | false =>
          simp at h
          exact step { st with unsigned := st.unsigned ++ [c] } rfl rfl h
        | true =>
          simp at h
          exact step st rfl rfl h

/-- Claim C2: starting a pass from the empty per-pass state, the signing
oracle is invoked exactly once per distinct valid resolved email of the
commits (however many commits share it), and never for an email that is
invalid — in particular never for the empty trimmed email. -/
theorem query_once_per_email (cfg : BotConfig) (valid : String → Bool)
    (q : String → Except String Bool) (cs : List PullRequestCommits) (st' : ResolveState)
    (h : resolveLoop cfg valid q cs ⟨[], [], []⟩ = .ok st')
    (hempty : valid "" = false) :
    (∀ e, st'.queried.count e =
       if valid e = true ∧ e ∈ cs.map (resolvedEmail cfg) then 1 else 0) ∧
    (∀ e ∈ st'.queried, valid e = true ∧ e ≠ "") := by
  obtain ⟨hk, hnd, hiff⟩ := resolveLoop_queried cfg valid q cs ⟨[], [], []⟩ st' h rfl (by simp)
  have hmem : ∀ e, e ∈ st'.queried ↔ (valid e = true ∧ e ∈ cs.map (resolvedEmail cfg)) := by
    intro e
    rw [hiff e]
    simp
  constructor
  · intro e
    by_cases hc : valid e = true ∧ e ∈ cs.map (resolvedEmail cfg)
    · rw [if_pos hc]
      exact List.count_eq_one_of_mem hnd ((hmem e).mpr hc)
    · rw [if_neg hc]
      exact List.count_eq_zero_of_not_mem (fun hmem' => hc ((hmem e).mp hmem'))
  · intro e he
    have h1 := (hmem e).mp he
    refine ⟨h1.1, fun heq => ?_⟩
    rw [heq, hempty] at h1
    exact absurd h1.1 (by simp)

/-- Witness for C2: two commits sharing `a@x.com` plus one invalid commit lead
to a single query of `a@x.com`. -/
theorem query_once_per_email_witness :
    (resolveLoop cfgW validW (fun _ => .ok true) [commitA, commitB, commitBad]
        ⟨[], [], []⟩ = .ok ⟨[("a@x.com", true)], [commitBad], ["a@x.com"]⟩) ∧
    (⟨[("a@x.com", true)], [commitBad], ["a@x.com"]⟩ : ResolveState).queried.count
        "a@x.com" = 1 := by
  refine ⟨rfl, ?_⟩
  have h := (query_once_per_email cfgW validW (fun _ => .ok true) [commitA, commitB, commitBad]
    ⟨[("a@x.com", true)], [commitBad], ["a@x.com"]⟩ rfl rfl).1 "a@x.com"
  rw [h, if_pos]
  exact ⟨by decide, by decide⟩

/-- `\s*$` holds exactly when the remainder of the current line is all
whitespace. -/
lemma matchLineEnd_eq (l : List Char) :
    matchLineEnd l = (l.takeWhile (fun c => !(c == '\n'))).all perlSpace := by
  induction l with
  | nil => rfl
  | cons c t ih =>
    by_cases hc : c = '\n'
    · subst hc
      simp [matchLineEnd]
    · simp [matchLineEnd, hc, ih, perlSpace]

/-- No character of the trigger literal lowercases to a newline. -/
lemma checkCLALiteral_no_newline : ∀ p ∈ checkCLALiteral, p.toLower ≠ '\n' := by
  decide

/-- Matching `<literal>\s*$` at a position only looks at the current line. -/
lemma matchLiteralCI_line :
    ∀ (lit cs : List Char), (∀ p ∈ lit, p.toLower ≠ '\n') →
      (match matchLiteralCI lit cs with
       | some r => matchLineEnd r
       | none => false) =
      (match matchLiteralCI lit (cs.takeWhile (fun c => !(c == '\n'))) with
       | some r => r.all perlSpace
       | none => false) := by
  intro lit
  induction lit with
  | nil =>
    intro cs _
    simp [matchLiteralCI, matchLineEnd_eq]
  | cons p ps ih =>
    intro cs hlit
    cases cs with
    | nil => rfl
    | cons c t =>
      by_cases hc : c = '\n'
      · subst hc
        have hne := hlit p (List.mem_cons_self p ps)
        have hp' : ¬('\n' = p.toLower) := fun hx => hne hx.symm
        simp [matchLiteralCI, hp']
      · by_cases hm : (c.toLower == p.toLower) = true
        · have := ih t (fun x hx => hlit x (List.mem_cons_of_mem _ hx))
          simp [matchLiteralCI, hm, hc]
          exact this
        · simp [matchLiteralCI, hm, hc]

/-- A match of the trigger pattern at a position is exactly a trigger line at
the head of the current line. -/
lemma matchCheckCLAHere_eq (cs : List Char) :
    matchCheckCLAHere cs = isTriggerLine (cs.takeWhile (fun c => !(c == '\n'))) := by
  have h := matchLiteralCI_line checkCLALiteral cs checkCLALiteral_no_newline
  simpa [matchCheckCLAHere, isTriggerLine] using h

/-- `splitOnNewline` starts with the first line. -/
lemma splitOnNewline_shape (cs : List Char) :
    ∃ ts, splitOnNewline cs = (cs.takeWhile (fun c => !(c == '\n'))) :: ts := by
  induction cs with
  | nil => exact ⟨[], rfl⟩
  | cons c t ih =>
    by_cases hc : c = '\n'
    · subst hc
      exact ⟨splitOnNewline t, by simp [splitOnNewline]⟩
    · obtain ⟨ts, hts⟩ := ih
      exact ⟨ts, by simp [splitOnNewline, hc, hts]⟩

/-- The scanner finds a match exactly when the current line (if the scanner
is at a line start) or some later line is a trigger line. -/
lemma checkCLAScan_eq :
    ∀ (cs : List Char) (b : Bool),
      checkCLAScan b cs =
        ((b && isTriggerLine (cs.takeWhile (fun c => !(c == '\n')))) ||
          (splitOnNewline cs).tail.any isTriggerLine) := by
  intro cs
  induction cs with
  | nil =>
    intro b
    cases b <;> rfl
  | cons c t ih =>
    intro b
    by_cases hc : c = '\n'
    · subst hc
      obtain ⟨ts, hts⟩ := splitOnNewline_shape t
      rw [checkCLAScan, ih, matchCheckCLAHere_eq]
      simp [splitOnNewline, hts, List.any_cons]
    · obtain ⟨ts, hts⟩ := splitOnNewline_shape t
      rw [checkCLAScan, ih, matchCheckCLAHere_eq]
      have hsplit : splitOnNewline (c :: t) =
          (c :: t.takeWhile (fun x => !(x == '\n'))) :: ts := by
        simp [splitOnNewline, hc, hts]
      have hcb : (c == '\n') = false := by simp [hc]
      simp [hsplit, hts, hc, hcb, Bool.or_assoc]

/-- Claim C8 counterexample: a freshly created pull-request comment whose body
is `" /check-cla"` (leading whitespace before the command) does NOT trigger
reconciliation — the handler skips it, although the claim says a line with
leading whitespace matches. -/
theorem checkCLA_leading_space_cex :
    handleNoteEvent (envOf (.ok [commitA]) (fun _ => .ok true)) (.ok cfgW) validW
      { isCreatingCommentEvent := true, isPullRequest := true
        commentBody := " /check-cla", pr := prW } = EventOutcome.skipped := rfl

/-- Claim C8 (amended): a comment event triggers reconciliation iff it is a
newly created pull-request comment whose body has some line consisting of
`/check-cla` (case-insensitive) at the very start of the line followed only by
whitespace; leading whitespace before the command disqualifies the line. -/
theorem checkCLA_trigger_characterization :
    (∀ s : String, checkCLAReMatch s = (splitOnNewline s.toList).any isTriggerLine) ∧
    (∀ (env : ClientEnv) (cfg : BotConfig) (valid : String → Bool) (e : NoteEvent),
       handleNoteEvent env (.ok cfg) valid e = .handled (handle env e.pr cfg valid true) ↔
         (e.isCreatingCommentEvent = true ∧ e.isPullRequest = true ∧
          checkCLAReMatch e.commentBody = true)) := by
  constructor
  · intro s
    obtain ⟨ts, hts⟩ := splitOnNewline_shape s.toList
    rw [checkCLAReMatch, checkCLAScan_eq, hts]
    simp
  · intro env cfg valid e
    constructor
    · intro h
      by_cases h1 : e.isCreatingCommentEvent = true <;>
        by_cases h2 : e.isPullRequest = true <;>
          by_cases h3 : checkCLAReMatch e.commentBody = true <;>
            simp_all [handleNoteEvent]
    · rintro ⟨h1, h2, h3⟩
      simp [handleNoteEvent, h1, h2, h3]

/-- Claim C9 counterexample: a trigger comment on a pull request whose state
is "closed" is still reconciled — the handler runs `handle`, which issues
mutations (two calls here) — although the claim says a non-open pull request
causes no reconciliation and no side effect. -/
theorem closed_pr_still_reconciled_cex :
    (({ isCreatingCommentEvent := true, isPullRequest := true
        commentBody := "/check-cla"
        pr := { state := "closed", labels := [], userLogin := "bob" } } : NoteEvent)).pr.state
        = "closed" ∧
    handleNoteEvent (envOf (.ok [commitBad]) (fun _ => .ok true)) (.ok cfgW) validW
      { isCreatingCommentEvent := true, isPullRequest := true
        commentBody := "/check-cla"
        pr := { state := "closed", labels := [], userLogin := "bob" } } =
      .handled (handle (envOf (.ok [commitBad]) (fun _ => .ok true))
        { state := "closed", labels := [], userLogin := "bob" } cfgW validW true) ∧
    (handle (envOf (.ok [commitBad]) (fun _ => .ok true))
        { state := "closed", labels := [], userLogin := "bob" } cfgW validW
        true).trace.length = 2 :=
  ⟨rfl, rfl, rfl⟩

/-- Claim C9 (amended): the comment handler never reads the pull-request
state — its outcome is identical whatever the state is — so a trigger comment
on a non-open pull request is reconciled exactly like one on an open pull
request. -/
theorem handleNoteEvent_ignores_state (env : ClientEnv) (cfgRes : Except String BotConfig)
    (valid : String → Bool) (e : NoteEvent) (s : String) :
    handleNoteEvent env cfgRes valid { e with pr := { e.pr with state := s } } =
      handleNoteEvent env cfgRes valid e := rfl

/-- Witness for C3: the source resolver and the spec resolver agree on a
concrete commit under committer-based checking. -/
theorem getAuthorOfCommit_matches_spec_witness :
    getAuthorOfCommit (some commitA) true cfgW.litePRCommitter.isLitePR =
      resolveIdentitySpec commitA true cfgW.litePRCommitter.isLitePR :=
  getAuthorOfCommit_matches_spec.1 commitA true cfgW.litePRCommitter.isLitePR

/-- Witness for C8 (amended): an upper-case trigger with trailing whitespace
does run reconciliation. -/
theorem checkCLA_trigger_characterization_witness :
    handleNoteEvent (envOf (.ok [commitBad]) (fun _ => .ok true)) (.ok cfgW) validW
      { isCreatingCommentEvent := true, isPullRequest := true
        commentBody := "/CHECK-CLA  ", pr := prW } =
      .handled (handle (envOf (.ok [commitBad]) (fun _ => .ok true)) prW cfgW validW true) :=
  (checkCLA_trigger_characterization.2 _ _ _ _).mpr ⟨rfl, rfl, by decide⟩

/-- Witness for C9 (amended): replacing the state of a concrete event by
"merged" leaves the handler's outcome unchanged. -/
theorem handleNoteEvent_ignores_state_witness :
    handleNoteEvent (envOf (.ok [commitBad]) (fun _ => .ok true)) (.ok cfgW) validW
      { isCreatingCommentEvent := true, isPullRequest := true
        commentBody := "/check-cla"
        pr := { prW with state := "merged" } } =
      handleNoteEvent (envOf (.ok [commitBad]) (fun _ => .ok true)) (.ok cfgW) validW
        { isCreatingCommentEvent := true, isPullRequest := true
          commentBody := "/check-cla", pr := prW } :=
  handleNoteEvent_ignores_state (envOf (.ok [commitBad]) (fun _ => .ok true)) (.ok cfgW) validW
    { isCreatingCommentEvent := true, isPullRequest := true
      commentBody := "/check-cla", pr := prW } "merged"

end RobotCla
